import Mathlib

/-!
Shallow embedding of the VisageVault persistence layer
(`db_manager.py` and `config_manager.py`).

The SQLite `photos` table is modelled as a list of rows in rowid order.
`INSERT OR REPLACE` is modelled faithfully: a new row deletes every
existing row that conflicts with it on a UNIQUE constraint
(`filepath`, or a non-null `file_hash`) and is appended with a fresh
rowid (`max + 1`, SQLite's rowid allocation).  A batch entry whose
filepath is SQL NULL violates the `NOT NULL` constraint and makes the
whole `executemany` raise `sqlite3.Error`; the code catches the error
and never commits, so the connection rollback leaves the table as it
was.  The configuration document is an ordered association list
mirroring a Python `dict` loaded from JSON (assignment updates the
first matching key in place, otherwise appends).
-/

namespace VisageVault

/-- A row of the `photos` table: `id` is the SQLite rowid
(`INTEGER PRIMARY KEY`), `filepath TEXT NOT NULL UNIQUE`,
`file_hash TEXT UNIQUE` (nullable), `year` and `month` nullable TEXT. -/
structure Row where
  id : Nat
  filepath : String
  file_hash : Option String
  year : Option String
  month : Option String
deriving DecidableEq, Repr

/-- The `photos` table, rows listed in rowid order. -/
abbrev Table := List Row

/-- A `(filepath, year, month)` triple passed to `bulk_upsert_photos`.
Each component is a Python value that may be `None` (SQL NULL). -/
abbrev Entry := Option String × Option String × Option String

/-- UNIQUE-constraint conflict between an existing row `q` and a row
`r` being inserted: same `filepath`, or both have the same non-null
`file_hash`. -/
def conflictB (q r : Row) : Bool :=
  q.filepath == r.filepath ||
    (match q.file_hash, r.file_hash with
     | some a, some b => a == b
     | _, _ => false)

/-- SQLite rowid allocation: one more than the largest rowid in use. -/
def freshId (t : Table) : Nat :=
  (t.map Row.id).foldr max 0 + 1

/-- `INSERT OR REPLACE`: delete every row conflicting with `r` on a
UNIQUE constraint, then insert `r` at the end (it gets the largest
rowid). -/
def insertOrReplace (t : Table) (r : Row) : Table :=
  t.filter (fun q => ! conflictB q r) ++ [r]

/-- Effect of one `INSERT OR REPLACE INTO photos (filepath, year,
month) VALUES (?, ?, ?)` for an entry whose filepath is non-null:
`file_hash` is not in the column list, so the inserted row's hash is
NULL.  An entry with a NULL filepath never reaches this point (the
statement raises instead); the catch-all branch returns the table
unchanged. -/
def applyEntry (t : Table) (e : Entry) : Table :=
  match e.1 with
  | some f => insertOrReplace t ⟨freshId t, f, none, e.2.1, e.2.2⟩
  | none => t

/-- `cursor.executemany` over the batch: entries are executed in
order; the first entry violating `filepath TEXT NOT NULL` raises
`sqlite3.Error` (`Option.none` here). -/
def runEntries : Table → List Entry → Option Table
  | t, [] => some t
  | t, e :: es =>
    match e.1 with
    | some f => runEntries (insertOrReplace t ⟨freshId t, f, none, e.2.1, e.2.2⟩) es
    | none => none

/-- `VisageVaultDB.bulk_upsert_photos`: run the batch; on success
commit the new table, on `sqlite3.Error` the except-branch swallows
the error, no commit happens, and closing the connection rolls back to
the pre-call table.  In both cases the call returns normally. -/
def bulk_upsert_photos (t : Table) (es : List Entry) : Table :=
  (runEntries t es).getD t

/-- `VisageVaultDB.update_photo_date`: `UPDATE photos SET year = ?,
month = ? WHERE filepath = ?`. Rows with a different filepath are
untouched; matching rows keep id, filepath and file_hash. -/
def update_photo_date (t : Table) (f : String) (y m : Option String) : Table :=
  t.map (fun r => if r.filepath == f then { r with year := y, month := m } else r)

/-- `SELECT ... WHERE filepath = ?` followed by `fetchone()`: the
first row in rowid order whose filepath matches. -/
def findRow (t : Table) (f : String) : Option Row :=
  t.find? (fun r => r.filepath == f)

/-- `VisageVaultDB.get_photo_date` success path: `(year, month)` of
the found row, or `None` when no row matches. -/
def get_photo_date (t : Table) (f : String) : Option (Option String × Option String) :=
  (findRow t f).map (fun r => (r.year, r.month))

/-- `VisageVaultDB.get_photo_date` as seen by the caller, with the
`except sqlite3.Error: return None` branch made explicit: `err = true`
means the query raised, and the method returns `None`. -/
def get_photo_date_result (err : Bool) (t : Table) (f : String) :
    Option (Option String × Option String) :=
  if err then none else get_photo_date t f

/-- `VisageVaultDB.load_all_photo_dates` success path: the dict
comprehension `{row['filepath']: (row['year'], row['month']) ...}`
over `SELECT filepath, year, month FROM photos`. -/
def load_all_photo_dates (t : Table) : List (String × (Option String × Option String)) :=
  t.map (fun r => (r.filepath, (r.year, r.month)))

/-- First value stored under a key of the dict built by
`load_all_photo_dates` (keys are unique, see `fpNodup`). -/
def lookupDate (d : List (String × (Option String × Option String))) (f : String) :
    Option (Option String × Option String) :=
  match d with
  | [] => none
  | (k, v) :: rest => if k == f then some v else lookupDate rest f

/-- The schema state `create_tables` acts on: for `photos`, `none`
means the table is absent and `some cols` is its column list in
declaration order; the other three tables are present or not. -/
structure Schema where
  photos : Option (List String)
  faces : Bool
  people : Bool
  face_labels : Bool
deriving DecidableEq, Repr

/-- Columns of a freshly created `photos` table. -/
def photosCols : List String :=
  ["id", "filepath", "file_hash", "year", "month"]

/-- `VisageVaultDB.create_tables`: `CREATE TABLE IF NOT EXISTS` for
the four tables, then the migration: `PRAGMA table_info(photos)` and
`ALTER TABLE photos ADD COLUMN month` only when `month` is absent. -/
def create_tables (s : Schema) : Schema :=
  let cols := match s.photos with
    | none => photosCols
    | some cs => cs
  let cols2 := if "month" ∈ cols then cols else cols ++ ["month"]
  { photos := some cols2, faces := true, people := true, face_labels := true }

/-- A repository write operation on the `photos` table. -/
inductive DBOp where
  | bulk : List Entry → DBOp
  | update : String → Option String → Option String → DBOp
deriving DecidableEq, Repr

/-- Apply one repository operation. -/
def applyOp (t : Table) (o : DBOp) : Table :=
  match o with
  | .bulk es => bulk_upsert_photos t es
  | .update f y m => update_photo_date t f y m

/-- Apply a sequence of repository operations in order. -/
def runOps (t : Table) (ops : List DBOp) : Table :=
  ops.foldl applyOp t

/-- The non-null `file_hash` values of the table are pairwise
distinct (the `file_hash TEXT UNIQUE` constraint). -/
def hashUnique (t : Table) : Prop :=
  (t.filterMap Row.file_hash).Nodup

instance : DecidablePred hashUnique := fun t =>
  inferInstanceAs (Decidable (t.filterMap Row.file_hash).Nodup)

/-- The filepaths of the table are pairwise distinct (the
`filepath TEXT NOT NULL UNIQUE` constraint). -/
def fpNodup (t : Table) : Prop :=
  (t.map Row.filepath).Nodup

instance : DecidablePred fpNodup := fun t =>
  inferInstanceAs (Decidable (t.map Row.filepath).Nodup)

/-- The last batch entry for filepath `f`, the one whose values win
under in-order upserting. -/
def lastFor (f : String) (L : List Entry) : Option Entry :=
  (L.filter (fun e => e.1 == some f)).getLast?

/-!
### Configuration store (`config_manager.py`)

`config_manager.py` defines every function twice (a duplicated block);
Python keeps the later definitions, so the embedding follows the
second block (lines 126-199).  The JSON configuration document is an
ordered association list: Python `dict` assignment updates the first
matching key in place and otherwise appends at the end.

`set_safe_password_hash` stores `hashlib.sha256(plain.encode()).hexdigest()`;
SHA-256 over the UTF-8 bytes of the string is implemented below on `Nat`.
-/

/-- `2^32`, the word modulus of SHA-256. -/
def M32 : Nat := 4294967296

/-- Right rotation of a 32-bit word. -/
def rotr (n x : Nat) : Nat :=
  (x >>> n) ||| ((x <<< (32 - n)) % M32)

/-- UTF-8 encoding of one Unicode code point. -/
def encodeChar (c : Nat) : List Nat :=
  if c < 128 then [c]
  else if c < 2048 then
    [192 ||| (c >>> 6), 128 ||| (c &&& 63)]
  else if c < 65536 then
    [224 ||| (c >>> 12), 128 ||| ((c >>> 6) &&& 63), 128 ||| (c &&& 63)]
  else
    [240 ||| (c >>> 18), 128 ||| ((c >>> 12) &&& 63),
      128 ||| ((c >>> 6) &&& 63), 128 ||| (c &&& 63)]

/-- The UTF-8 bytes of a string (`str.encode()` in Python). -/
def utf8Bytes (s : String) : List Nat :=
  (s.data.map (fun c => encodeChar c.toNat)).flatten

/-- Big-endian byte serialization of `x` on `n` bytes. -/
def beBytes (n : Nat) (x : Nat) : List Nat :=
  (List.range n).map (fun i => (x >>> (8 * (n - 1 - i))) &&& 255)

/-- SHA-256 message padding: `0x80`, zeros up to 56 mod 64, then the
bit length on 8 big-endian bytes. -/
def padBytes (msg : List Nat) : List Nat :=
  let L := msg.length
  let zeros := (64 - ((L + 9) % 64)) % 64
  msg ++ [128] ++ List.replicate zeros 0 ++ beBytes 8 (8 * L)

/-- Split a list into chunks of `n` bytes; the fuel argument (always
instantiated with the list length) keeps the recursion structural. -/
def chunkByAux (n : Nat) : Nat → List Nat → List (List Nat)
  | 0, _ => []
  | _, [] => []
  | fuel + 1, x :: xs =>
    (x :: List.take (n - 1) xs) :: chunkByAux n fuel (List.drop (n - 1) xs)

/-- Split a list into chunks of `n` bytes. -/
def chunkBy (n : Nat) (l : List Nat) : List (List Nat) :=
  chunkByAux n l.length l

/-- Big-endian word value of a byte list. -/
def beWord (b : List Nat) : Nat := b.foldl (fun a x => a * 256 + x) 0

/-- The 64 SHA-256 round constants. -/
def shaK : List Nat :=
  [1116352408, 1899447441, 3049323471, 3921009573, 961987163, 1508970993,
   2453635748, 2870763221, 3624381080, 310598401, 607225278, 1426881987,
   1925078388, 2162078206, 2614888103, 3248222580, 3835390401, 4022224774,
   264347078, 604807628, 770255983, 1249150122, 1555081692, 1996064986,
   2554220882, 2821834349, 2952996808, 3210313671, 3336571891, 3584528711,
   113926993, 338241895, 666307205, 773529912, 1294757372, 1396182291,
   1695183700, 1986661051, 2177026350, 2456956037, 2730485921, 2820302411,
   3259730800, 3345764771, 3516065817, 3600352804, 4094571909, 275423344,
   430227734, 506948616, 659060556, 883997877, 958139571, 1322822218,
   1537002063, 1747873779, 1955562222, 2024104815, 2227730452, 2361852424,
   2428436474, 2756734187, 3204031479, 3329325298]

/-- The eight 32-bit working variables of SHA-256. -/
structure H8 where
  a : Nat
  b : Nat
  c : Nat
  d : Nat
  e : Nat
  f : Nat
  g : Nat
  h : Nat
deriving DecidableEq, Repr

/-- The SHA-256 initial hash value. -/
def shaH0 : H8 :=
  ⟨1779033703, 3144134277, 1013904242, 2773480762,
   1359893119, 2600822924, 528734635, 1541459225⟩

/-- Extend the 16 message words of a block to the 64-word schedule. -/
def schedule (w : List Nat) : List Nat :=
  (List.range 48).foldl (fun acc _ =>
    let n := acc.length
    let wm15 := acc.getD (n - 15) 0
    let wm2 := acc.getD (n - 2) 0
    let wm16 := acc.getD (n - 16) 0
    let wm7 := acc.getD (n - 7) 0
    let s0 := (rotr 7 wm15) ^^^ (rotr 18 wm15) ^^^ (wm15 >>> 3)
    let s1 := (rotr 17 wm2) ^^^ (rotr 19 wm2) ^^^ (wm2 >>> 10)
    acc ++ [(wm16 + s0 + wm7 + s1) % M32]) w

/-- One SHA-256 round. -/
def shaRound (s : H8) (k w : Nat) : H8 :=
  let S1 := (rotr 6 s.e) ^^^ (rotr 11 s.e) ^^^ (rotr 25 s.e)
  let ch := (s.e &&& s.f) ^^^ ((s.e ^^^ 4294967295) &&& s.g)
  let t1 := (s.h + S1 + ch + k + w) % M32
  let S0 := (rotr 2 s.a) ^^^ (rotr 13 s.a) ^^^ (rotr 22 s.a)
  let mj := (s.a &&& s.b) ^^^ (s.a &&& s.c) ^^^ (s.b &&& s.c)
  let t2 := (S0 + mj) % M32
  ⟨(t1 + t2) % M32, s.a, s.b, s.c, (s.d + t1) % M32, s.e, s.f, s.g⟩

/-- Compress one 64-byte block into the hash state. -/
def compress (hs : H8) (block : List Nat) : H8 :=
  let w := schedule ((chunkBy 4 block).map beWord)
  let s := (shaK.zip w).foldl (fun st p => shaRound st p.1 p.2) hs
  ⟨(hs.a + s.a) % M32, (hs.b + s.b) % M32, (hs.c + s.c) % M32, (hs.d + s.d) % M32,
   (hs.e + s.e) % M32, (hs.f + s.f) % M32, (hs.g + s.g) % M32, (hs.h + s.h) % M32⟩

/-- The SHA-256 digest (32 bytes) of a byte message. -/
def sha256bytes (msg : List Nat) : List Nat :=
  let final := (chunkBy 64 (padBytes msg)).foldl compress shaH0
  ([final.a, final.b, final.c, final.d,
    final.e, final.f, final.g, final.h].map (beBytes 4)).flatten

/-- Lowercase hex digit. -/
def hexDigit (n : Nat) : Char :=
  "0123456789abcdef".data.getD n '0'

/-- Two lowercase hex digits of a byte. -/
def hexByte (b : Nat) : List Char :=
  [hexDigit (b >>> 4), hexDigit (b &&& 15)]

/-- `hashlib.sha256(s.encode()).hexdigest()`. -/
def sha256hex (s : String) : String :=
  String.mk (((sha256bytes (utf8Bytes s)).map hexByte).flatten)

/-- A JSON value stored in the configuration document (the keys this
layer writes hold strings or integers). -/
inductive JVal where
  | str : String → JVal
  | num : Int → JVal
deriving DecidableEq, Repr

/-- The configuration document: a JSON object as an ordered
association list, as loaded by `load_config()`. -/
abbrev Config := List (String × JVal)

/-- `config.get(k)`: first value stored under `k`. -/
def getKey : Config → String → Option JVal
  | [], _ => none
  | (k2, v) :: rest, k => if k2 == k then some v else getKey rest k

/-- `config[k] = v`: update the first binding of `k` in place,
otherwise append the new binding at the end (Python dict assignment
preserves insertion order). -/
def setKey : Config → String → JVal → Config
  | [], k, v => [(k, v)]
  | (k2, v2) :: rest, k, v =>
    if k2 == k then (k2, v) :: rest else (k2, v2) :: setKey rest k v

/-- `set_photo_directory(path)`: load, assign `photo_directory`, save. -/
def set_photo_directory (path : String) (cfg : Config) : Config :=
  setKey cfg "photo_directory" (.str path)

/-- `set_thumbnail_size(size)`: load, assign `thumbnail_size`, save. -/
def set_thumbnail_size (size : Int) (cfg : Config) : Config :=
  setKey cfg "thumbnail_size" (.num size)

/-- `set_drive_folder_id(folder_id)`: load, assign `drive_folder_id`,
save. -/
def set_drive_folder_id (folder_id : String) (cfg : Config) : Config :=
  setKey cfg "drive_folder_id" (.str folder_id)

/-- `get_safe_password_hash()`: `config.get('safe_password_hash', None)`. -/
def get_safe_password_hash (cfg : Config) : Option JVal :=
  getKey cfg "safe_password_hash"

/-- `set_safe_password_hash(password_plain)`: store only
`sha256(password_plain.encode()).hexdigest()`, never the plaintext. -/
def set_safe_password_hash (password_plain : String) (cfg : Config) : Config :=
  setKey cfg "safe_password_hash" (.str (sha256hex password_plain))

/-- `verify_safe_password(password_plain)`: false when the stored
value is absent or falsy (`if not stored_hash`); otherwise compare the
recomputed hex digest with the stored one.  A stored non-string value
is falsy (`0`) or compares unequal to the digest string, so it also
yields false. -/
def verify_safe_password (password_plain : String) (cfg : Config) : Bool :=
  match get_safe_password_hash cfg with
  | none => false
  | some (.str h) => if h = "" then false else sha256hex password_plain == h
  | some (.num _) => false

/-! ### Basic lemmas about the table operations -/

/-- A row with a NULL `file_hash` conflicts exactly on `filepath`. -/
theorem conflictB_hash_none {q r : Row} (h : r.file_hash = none) :
    conflictB q r = (q.filepath == r.filepath) := by
  cases hq : q.file_hash <;> simp [conflictB, h, hq]

/-- `find?` ignores a filter whose removed elements never satisfy the
search predicate. -/
theorem find?_filter_imp {α : Type} (p q : α → Bool) (l : List α)
    (h : ∀ a, p a = true → q a = true) :
    (l.filter q).find? p = l.find? p := by
  induction l with
  | nil => rfl
  | cons a l ih =>
    by_cases hq : q a = true
    · by_cases hp : p a = true
      · simp [List.filter_cons, hq, List.find?_cons, hp]
      · simp only [Bool.not_eq_true] at hp
        simp [List.filter_cons, hq, List.find?_cons, hp, ih]
    · have hp : p a = false := by
        cases hpa : p a
        · rfl
        · exact absurd (h a hpa) hq
      simp only [Bool.not_eq_true] at hq
      simp [List.filter_cons, hq, List.find?_cons, hp, ih]

/-- Looking up a filepath after an `INSERT OR REPLACE` of a row with
NULL hash: the new row is found at its own filepath, every other
lookup is unchanged. -/
theorem findRow_insertOrReplace (t : Table) (r : Row) (f : String)
    (hr : r.file_hash = none) :
    findRow (insertOrReplace t r) f =
      if r.filepath = f then some r else findRow t f := by
  unfold findRow insertOrReplace
  rw [List.find?_append]
  by_cases h : r.filepath = f
  · subst h
    have h1 : (t.filter (fun q => ! conflictB q r)).find?
        (fun q => q.filepath == r.filepath) = none := by
      rw [List.find?_eq_none]
      intro x hx
      rw [List.mem_filter] at hx
      intro hbe
      have : conflictB x r = true := by
        rw [conflictB_hash_none hr]; exact hbe
      simp [this] at hx
    simp [h1, List.find?_cons]
  · have hne : ¬ (r.filepath == f) = true := by
      simp [h]
    rw [find?_filter_imp]
    · cases hfind : t.find? (fun q => q.filepath == f) <;>
        simp [List.find?_cons, hne, hfind, Option.or, h]
    · intro a ha
      rw [conflictB_hash_none hr] at *
      simp only [Bool.not_eq_true'] at *
      cases hc : (a.filepath == r.filepath)
      · rfl
      · exfalso
        have h1 : a.filepath = f := by simpa using ha
        have h2 : a.filepath = r.filepath := by simpa using hc
        exact h (h2 ▸ h1)

/-- A fully valid batch runs to completion and equals the in-order
fold of single upserts. -/
theorem runEntries_ok (L : List Entry) (t : Table)
    (hv : ∀ e ∈ L, e.1 ≠ none) :
    runEntries t L = some (L.foldl applyEntry t) := by
  induction L generalizing t with
  | nil => rfl
  | cons e es ih =>
    cases he : e.1 with
    | none => exact absurd he (hv e (by simp))
    | some f =>
      simp only [runEntries, he, List.foldl_cons]
      rw [ih _ (fun x hx => hv x (by simp [hx]))]
      simp [applyEntry, he]

/-- A batch containing an entry with a NULL filepath raises. -/
theorem runEntries_err (L : List Entry) (t : Table)
    (hv : ∃ e ∈ L, e.1 = none) :
    runEntries t L = none := by
  induction L generalizing t with
  | nil => simp at hv
  | cons e es ih =>
    cases he : e.1 with
    | none => simp [runEntries, he]
    | some f =>
      obtain ⟨x, hx, hx1⟩ := hv
      rcases List.mem_cons.mp hx with rfl | hxs
      · exact absurd hx1 (by simp [he])
      · simp only [runEntries, he]
        exact ih _ ⟨x, hxs, hx1⟩

/-- On a fully valid batch, `bulk_upsert_photos` commits the in-order
fold of the entries. -/
theorem bulk_upsert_photos_ok (L : List Entry) (t : Table)
    (hv : ∀ e ∈ L, e.1 ≠ none) :
    bulk_upsert_photos t L = L.foldl applyEntry t := by
  simp [bulk_upsert_photos, runEntries_ok L t hv]

/-- On a failing batch, `bulk_upsert_photos` leaves the table exactly
as it was. -/
theorem bulk_upsert_photos_err (L : List Entry) (t : Table)
    (hv : ∃ e ∈ L, e.1 = none) :
    bulk_upsert_photos t L = t := by
  simp [bulk_upsert_photos, runEntries_err L t hv]

/-- Appending one entry to a batch: the last entry for `f` is the new
entry when it is for `f`, otherwise unchanged. -/
theorem lastFor_append_one (f : String) (L : List Entry) (e : Entry) :
    lastFor f (L ++ [e]) = if e.1 == some f then some e else lastFor f L := by
  unfold lastFor
  rw [List.filter_append]
  by_cases h : (e.1 == some f) = true
  · simp [List.filter_cons, h, List.getLast?_concat]
  · simp only [Bool.not_eq_true] at h
    simp [List.filter_cons, h]

/-- Projection of a row to the data `bulk_upsert_photos` controls. -/
def rowData (r : Row) : Option String × Option String × Option String :=
  (r.year, r.month, r.file_hash)

/-- Lookup after folding a valid batch over the table: the found data
comes from the last batch entry for that filepath (with `file_hash`
cleared to NULL), and otherwise from the original table. -/
theorem findRow_foldl (L : List Entry) (t : Table) (f : String)
    (hv : ∀ e ∈ L, e.1 ≠ none) :
    (findRow (L.foldl applyEntry t) f).map rowData
      = ((lastFor f L).map (fun e => (e.2.1, e.2.2, (none : Option String)))).or
          ((findRow t f).map rowData) := by
  induction L using List.reverseRecOn with
  | nil =>
    simp [lastFor, Option.none_or]
  | append_singleton L e ih =>
    have hvL : ∀ x ∈ L, x.1 ≠ none := fun x hx => hv x (by simp [hx])
    cases he : e.1 with
    | none => exact absurd he (hv e (by simp))
    | some g =>
      rw [List.foldl_append, List.foldl_cons, List.foldl_nil]
      have happ : applyEntry (L.foldl applyEntry t) e =
          insertOrReplace (L.foldl applyEntry t)
            ⟨freshId (L.foldl applyEntry t), g, none, e.2.1, e.2.2⟩ := by
        simp [applyEntry, he]
      rw [happ, findRow_insertOrReplace _ _ _ rfl, lastFor_append_one]
      by_cases hg : g = f
      · subst hg
        simp [he, rowData]
      · have hne : ¬ (e.1 == some f) = true := by simp [he, hg]
        rw [if_neg hg, if_neg hne]
        exact ih hvL

/-- A filepath is found after upserting batches into an empty table
exactly when some batch entry mentions it. -/
theorem findRow_foldl_isSome (L : List Entry) (f : String)
    (hv : ∀ e ∈ L, e.1 ≠ none) :
    (findRow (L.foldl applyEntry ([] : Table)) f).isSome
      = (lastFor f L).isSome := by
  have h := findRow_foldl L [] f hv
  have h2 := congrArg Option.isSome h
  simpa [findRow, Option.isSome_map'] using h2

/-! ### Preservation of the UNIQUE constraints -/

/-- `INSERT OR REPLACE` keeps filepaths pairwise distinct. -/
theorem fpNodup_insertOrReplace (t : Table) (r : Row) (h : fpNodup t) :
    fpNodup (insertOrReplace t r) := by
  unfold fpNodup insertOrReplace at *
  rw [List.map_append, List.nodup_append]
  refine ⟨((List.filter_sublist t).map Row.filepath).nodup h, by simp, ?_⟩
  rw [List.map_singleton, List.disjoint_singleton]
  intro hmem
  rw [List.mem_map] at hmem
  obtain ⟨q, hq, hqf⟩ := hmem
  rw [List.mem_filter] at hq
  have : conflictB q r = true := by
    unfold conflictB
    simp [hqf]
  simp [this] at hq

/-- `INSERT OR REPLACE` keeps non-null hashes pairwise distinct: a row
carrying an already-present hash replaces the conflicting row rather
than duplicating the hash. -/
theorem hashUnique_insertOrReplace (t : Table) (r : Row) (h : hashUnique t) :
    hashUnique (insertOrReplace t r) := by
  unfold hashUnique insertOrReplace at *
  rw [List.filterMap_append]
  have hsub : ((t.filter (fun q => ! conflictB q r)).filterMap Row.file_hash).Nodup :=
    (List.Sublist.filterMap Row.file_hash (List.filter_sublist t)).nodup h
  cases hr : r.file_hash with
  | none => simpa [List.filterMap, hr] using hsub
  | some a =>
    rw [List.nodup_append]
    refine ⟨hsub, by simp [List.filterMap, hr], ?_⟩
    have : a ∉ (t.filter (fun q => ! conflictB q r)).filterMap Row.file_hash := by
      intro hmem
      rw [List.mem_filterMap] at hmem
      obtain ⟨q, hq, hqa⟩ := hmem
      rw [List.mem_filter] at hq
      have : conflictB q r = true := by
        unfold conflictB
        rw [hqa, hr]
        simp
      simp [this] at hq
    simpa [List.filterMap, hr, List.disjoint_singleton] using this

/-- `UPDATE` keeps every row's filepath, so the filepath constraint is
untouched. -/
theorem filepath_update (t : Table) (f : String) (y m : Option String) :
    (update_photo_date t f y m).map Row.filepath = t.map Row.filepath := by
  unfold update_photo_date
  rw [List.map_map]
  congr 1
  funext r
  by_cases h : (r.filepath == f) = true <;> simp [h, Function.comp]

/-- `UPDATE` keeps every row's hash, so the hash constraint is
untouched. -/
theorem file_hash_update (t : Table) (f : String) (y m : Option String) :
    (update_photo_date t f y m).filterMap Row.file_hash = t.filterMap Row.file_hash := by
  unfold update_photo_date
  rw [List.filterMap_map]
  congr 1
  funext r
  by_cases h : (r.filepath == f) = true <;> simp [h, Function.comp]

/-- Both UNIQUE constraints survive any single repository operation. -/
theorem constraints_applyOp (t : Table) (o : DBOp)
    (hf : fpNodup t) (hh : hashUnique t) :
    fpNodup (applyOp t o) ∧ hashUnique (applyOp t o) := by
  cases o with
  | update f y m =>
    constructor
    · unfold fpNodup
      rw [applyOp, filepath_update]
      exact hf
    · unfold hashUnique
      rw [applyOp, file_hash_update]
      exact hh
  | bulk es =>
    rw [applyOp, bulk_upsert_photos]
    cases hrun : runEntries t es with
    | none => exact ⟨hf, hh⟩
    | some t2 =>
      suffices hgen : ∀ (es : List Entry) (t : Table) (t2 : Table),
          runEntries t es = some t2 → fpNodup t → hashUnique t →
          fpNodup t2 ∧ hashUnique t2 by
        exact hgen es t t2 hrun hf hh
      intro es
      induction es with
      | nil =>
        intro t t2 hrun hf hh
        simp only [runEntries, Option.some.injEq] at hrun
        exact hrun ▸ ⟨hf, hh⟩
      | cons e es ih =>
        intro t t2 hrun hf hh
        cases he : e.1 with
        | none => simp [runEntries, he] at hrun
        | some g =>
          simp only [runEntries, he] at hrun
          exact ih _ _ hrun
            (fpNodup_insertOrReplace _ _ hf)
            (hashUnique_insertOrReplace _ _ hh)

/-- Both UNIQUE constraints survive any sequence of repository
operations. -/
theorem constraints_runOps (ops : List DBOp) (t : Table)
    (hf : fpNodup t) (hh : hashUnique t) :
    fpNodup (runOps t ops) ∧ hashUnique (runOps t ops) := by
  induction ops generalizing t with
  | nil => exact ⟨hf, hh⟩
  | cons o ops ih =>
    have h := constraints_applyOp t o hf hh
    exact ih (applyOp t o) h.1 h.2

/-! ### Sequences of bulk upserts -/

/-- A sequence of fully valid bulk calls is the in-order fold of the
concatenation of their batches. -/
theorem bulks_eq_foldl_flatten (bs : List (List Entry)) (t : Table)
    (hv : ∀ b ∈ bs, ∀ e ∈ b, e.1 ≠ none) :
    bs.foldl bulk_upsert_photos t = bs.flatten.foldl applyEntry t := by
  induction bs generalizing t with
  | nil => rfl
  | cons b bs ih =>
    rw [List.foldl_cons, List.flatten_cons, List.foldl_append,
      bulk_upsert_photos_ok b t (hv b (by simp))]
    exact ih _ (fun x hx e he => hv x (by simp [hx]) e he)

/-- Upserting never stores a hash: if no row of the table carries a
hash, none does afterwards. -/
theorem hash_none_foldl (L : List Entry) (t : Table)
    (ht : ∀ r ∈ t, r.file_hash = none) :
    ∀ r ∈ L.foldl applyEntry t, r.file_hash = none := by
  induction L generalizing t with
  | nil => exact ht
  | cons e es ih =>
    rw [List.foldl_cons]
    refine ih _ ?_
    intro r hr
    cases he : e.1 with
    | none => exact ht r (by simpa [applyEntry, he] using hr)
    | some g =>
      simp only [applyEntry, he, insertOrReplace, List.mem_append] at hr
      rcases hr with hr | hr
      · exact ht r (List.mem_filter.mp hr).1
      · simp at hr
        rw [hr]

/-- Upserting preserves distinctness of filepaths. -/
theorem fpNodup_foldl (L : List Entry) (t : Table) (ht : fpNodup t) :
    fpNodup (L.foldl applyEntry t) := by
  induction L generalizing t with
  | nil => exact ht
  | cons e es ih =>
    rw [List.foldl_cons]
    refine ih _ ?_
    cases he : e.1 with
    | none => simpa [applyEntry, he] using ht
    | some g =>
      simp only [applyEntry, he]
      exact fpNodup_insertOrReplace _ _ ht

/-- Looking a filepath up in the dict built by
`load_all_photo_dates` agrees with `get_photo_date`. -/
theorem lookupDate_load_all (t : Table) (f : String) :
    lookupDate (load_all_photo_dates t) f = get_photo_date t f := by
  induction t with
  | nil => rfl
  | cons r t ih =>
    by_cases h : (r.filepath == f) = true
    · simp [load_all_photo_dates, lookupDate, get_photo_date, findRow,
        List.find?_cons, h]
    · simpa [load_all_photo_dates, lookupDate, get_photo_date, findRow,
        List.find?_cons, h] using ih

/-- The keys of the dict built by `load_all_photo_dates` are the
table's filepaths in rowid order. -/
theorem load_all_keys (t : Table) :
    (load_all_photo_dates t).map Prod.fst = t.map Row.filepath := by
  unfold load_all_photo_dates
  rw [List.map_map]
  rfl

/-! ### Configuration store lemmas -/

/-- Reading back the key just assigned gives the assigned value. -/
theorem getKey_setKey_same (cfg : Config) (k : String) (v : JVal) :
    getKey (setKey cfg k v) k = some v := by
  induction cfg with
  | nil => simp [setKey, getKey]
  | cons p rest ih =>
    by_cases h : (p.1 == k) = true
    · simp [setKey, getKey, h]
    · simp [setKey, getKey, h, ih]

/-- Assigning one key leaves every other key's value unchanged. -/
theorem getKey_setKey_other (cfg : Config) (k k2 : String) (v : JVal)
    (h : k2 ≠ k) :
    getKey (setKey cfg k v) k2 = getKey cfg k2 := by
  induction cfg with
  | nil =>
    have hne : ¬ (k == k2) = true := by
      simp only [beq_iff_eq]
      exact fun e => h e.symm
    simp [setKey, getKey, hne]
  | cons p rest ih =>
    by_cases hp : (p.1 == k) = true
    · have hk2 : ¬ (p.1 == k2) = true := by
        simp only [beq_iff_eq] at hp ⊢
        exact fun e => h (e ▸ hp : k2 = k)
      simp [setKey, getKey, hp, hk2]
    · by_cases hq : (p.1 == k2) = true
      · simp [setKey, getKey, hp, hq]
      · simp [setKey, getKey, hp, hq, ih]

/-- `beBytes` produces exactly `n` bytes. -/
theorem length_beBytes (n x : Nat) : (beBytes n x).length = n := by
  simp [beBytes]

/-- The SHA-256 digest is 32 bytes. -/
theorem length_sha256bytes (msg : List Nat) : (sha256bytes msg).length = 32 := by
  unfold sha256bytes
  simp [length_beBytes]

/-- The hex-encoded digest is 64 characters long. -/
theorem length_sha256hex (s : String) : (sha256hex s).length = 64 := by
  show (((sha256bytes (utf8Bytes s)).map hexByte).flatten).length = 64
  rw [List.length_flatten, List.map_map]
  have h1 : (List.length ∘ hexByte) = fun _ => 2 := by
    funext b
    rfl
  rw [h1, List.map_const', List.sum_replicate, length_sha256bytes]
  rfl

/-- The hex digest is never the empty (falsy) string. -/
theorem sha256hex_ne_empty (s : String) : sha256hex s ≠ "" := by
  intro h
  have := congrArg String.length h
  rw [length_sha256hex s] at this
  simp at this

/-! ### The claims -/

/-- C1: for every filepath `f` and strings `y`, `m`, after calling
`bulk_upsert_photos` on a (valid, hence committed) batch containing
`(f, y, m)` as its only entry for `f`, `get_photo_date f` returns
`(y, m)`. -/
theorem claim_C1_upsert_then_get (t : Table) (L : List Entry) (f y m : String)
    (hv : ∀ e ∈ L, e.1 ≠ none)
    (hmem : ((some f : Option String), (some y : Option String), (some m : Option String)) ∈ L)
    (honly : ∀ e ∈ L, e.1 = some f → e = (some f, some y, some m)) :
    get_photo_date (bulk_upsert_photos t L) f = some (some y, some m) := by
  rw [bulk_upsert_photos_ok L t hv]
  have hlast : lastFor f L = some (some f, some y, some m) := by
    unfold lastFor
    have hne : L.filter (fun e => e.1 == some f) ≠ [] := by
      refine List.ne_nil_of_mem (a := (some f, some y, some m)) ?_
      rw [List.mem_filter]
      exact ⟨hmem, by simp⟩
    rw [List.getLast?_eq_getLast _ hne]
    have hmem2 := List.getLast_mem hne
    rw [List.mem_filter] at hmem2
    rw [honly _ hmem2.1 (by simpa using hmem2.2)]
  have h := findRow_foldl L t f hv
  rw [hlast] at h
  have h2 : (findRow (L.foldl applyEntry t) f).map rowData
      = some (some y, some m, (none : Option String)) := h
  rw [Option.map_eq_some'] at h2
  obtain ⟨r, hr, hrd⟩ := h2
  unfold get_photo_date
  rw [hr]
  unfold rowData at hrd
  have h3 : r.year = some y ∧ r.month = some m :=
    ⟨(Prod.ext_iff.mp hrd).1, (Prod.ext_iff.mp (Prod.ext_iff.mp hrd).2).1⟩
  simp [h3.1, h3.2]

/-- Witness for C1 at a concrete batch. -/
theorem claim_C1_witness :
    get_photo_date
      (bulk_upsert_photos []
        [((some "/a.jpg" : Option String), (some "2024" : Option String), (some "01" : Option String))])
      "/a.jpg" = some (some "2024", some "01") :=
  claim_C1_upsert_then_get [] _ "/a.jpg" "2024" "01"
    (by decide) (by decide) (by decide)

/-- C2: `bulk_upsert_photos` is atomic.  On a batch whose entries all
satisfy the `NOT NULL` constraint, the whole batch is committed (the
in-order fold of the single upserts); on a storage error the table is
exactly the pre-call table.  The embedding is a total function, so in
both cases the call returns normally and no exception reaches the
caller. -/
theorem claim_C2_bulk_atomic (t : Table) (L : List Entry) :
    ((∀ e ∈ L, e.1 ≠ none) → bulk_upsert_photos t L = L.foldl applyEntry t) ∧
    ((∃ e ∈ L, e.1 = none) → bulk_upsert_photos t L = t) :=
  ⟨fun hv => bulk_upsert_photos_ok L t hv, fun hv => bulk_upsert_photos_err L t hv⟩

/-- Witness for C2: a committed batch and a rolled-back batch. -/
theorem claim_C2_witness :
    bulk_upsert_photos [] [((some "/a.jpg" : Option String), some "2024", some "01")]
      = [((some "/a.jpg" : Option String), some "2024", some "01")].foldl applyEntry [] ∧
    bulk_upsert_photos [⟨1, "/b.jpg", none, some "2020", some "05"⟩]
        [((some "/a.jpg" : Option String), some "2024", some "01"),
         ((none : Option String), some "2024", some "02")]
      = [⟨1, "/b.jpg", none, some "2020", some "05"⟩] :=
  ⟨(claim_C2_bulk_atomic [] _).1 (by decide),
   (claim_C2_bulk_atomic _ _).2 (by decide)⟩

/-- C4: running `create_tables` a second time is the identity on the
schema: no error, no duplicated `month` column, no re-created table;
moreover the `month` column is present after any run. -/
theorem claim_C4_create_tables_idempotent (s : Schema) :
    create_tables (create_tables s) = create_tables s ∧
    ∀ cs, (create_tables s).photos = some cs → "month" ∈ cs := by
  constructor
  · unfold create_tables
    cases hp : s.photos with
    | none => simp [photosCols]
    | some cs =>
      by_cases hm : "month" ∈ cs
      · simp [hm]
      · simp [hm]
  · intro cs hcs
    unfold create_tables at hcs
    simp only [Option.some.injEq] at hcs
    rw [← hcs]
    by_cases hm : "month" ∈ (match s.photos with | none => photosCols | some cs2 => cs2)
    · rw [if_pos hm]
      exact hm
    · rw [if_neg hm]
      simp

/-- C5: `get_photo_date` returns the `(year, month)` pair of the
matching row wrapped in `some` — distinguished from the `none` it
returns both when no row matches and when the query raises
`sqlite3.Error`, so the caller cannot tell an absent row from a
storage error. -/
theorem claim_C5_get_not_found (t : Table) (f : String) :
    get_photo_date_result true t f = none ∧
    ((¬ ∃ r ∈ t, r.filepath = f) → get_photo_date_result false t f = none) ∧
    (∀ r, findRow t f = some r →
      get_photo_date_result false t f = some (r.year, r.month) ∧
      get_photo_date_result false t f ≠ none) := by
  refine ⟨rfl, ?_, ?_⟩
  · intro h
    have hnone : findRow t f = none := by
      rw [findRow, List.find?_eq_none]
      intro x hx hp
      exact h ⟨x, hx, by simpa using hp⟩
    simp [get_photo_date_result, get_photo_date, hnone]
  · intro r hr
    constructor
    · simp [get_photo_date_result, get_photo_date, hr]
    · simp [get_photo_date_result, get_photo_date, hr]

/-- Witness for C5: on a one-row table with NULL dates, the error
path, an absent filepath, and the found row (whose result
`some (none, none)` differs from the not-found `none`). -/
theorem claim_C5_witness :
    get_photo_date_result true [⟨1, "/a.jpg", none, none, none⟩] "/a.jpg" = none ∧
    get_photo_date_result false [⟨1, "/a.jpg", none, none, none⟩] "/missing.jpg" = none ∧
    get_photo_date_result false [⟨1, "/a.jpg", none, none, none⟩] "/a.jpg" = some (none, none) :=
  ⟨(claim_C5_get_not_found [⟨1, "/a.jpg", none, none, none⟩] "/a.jpg").1,
   (claim_C5_get_not_found _ "/missing.jpg").2.1 (by decide),
   ((claim_C5_get_not_found _ "/a.jpg").2.2 ⟨1, "/a.jpg", none, none, none⟩ (by decide)).1⟩

/-- C6: `update_photo_date` on a filepath matching no row leaves the
table completely unchanged (in particular the row count); the
embedding is a total function, so nothing is raised or reported. -/
theorem claim_C6_update_unknown_noop (t : Table) (f : String) (y m : Option String)
    (h : ∀ r ∈ t, r.filepath ≠ f) :
    update_photo_date t f y m = t := by
  induction t with
  | nil => rfl
  | cons r t ih =>
    have hr : ¬ (r.filepath == f) = true := by
      simpa using h r (by simp)
    have ht : update_photo_date t f y m = t :=
      ih (fun x hx => h x (by simp [hx]))
    unfold update_photo_date at ht ⊢
    simp only [List.map_cons, if_neg hr, ht]

/-- Witness for C6: updating an unknown filepath on a concrete
table. -/
theorem claim_C6_witness :
    update_photo_date [⟨1, "/b.jpg", none, some "2020", some "05"⟩]
      "/a.jpg" (some "2000") (some "01")
      = [⟨1, "/b.jpg", none, some "2020", some "05"⟩] :=
  claim_C6_update_unknown_noop _ "/a.jpg" _ _ (by decide)

/-- C3: after any sequence of committed `bulk_upsert_photos` calls on
an initially empty table, `load_all_photo_dates` has pairwise distinct
keys, its keys are exactly the filepaths ever upserted, the value
stored under a filepath comes from the most recent upsert of that
filepath, and every row's `file_hash` is NULL (`INSERT OR REPLACE`
replaces the whole row and the statement never supplies a hash). -/
theorem claim_C3_load_all (bs : List (List Entry)) (f : String)
    (hv : ∀ b ∈ bs, ∀ e ∈ b, e.1 ≠ none) :
    ((load_all_photo_dates (bs.foldl bulk_upsert_photos [])).map Prod.fst).Nodup ∧
    (∀ g : String,
      g ∈ (load_all_photo_dates (bs.foldl bulk_upsert_photos [])).map Prod.fst ↔
        some g ∈ bs.flatten.map (fun e => e.1)) ∧
    lookupDate (load_all_photo_dates (bs.foldl bulk_upsert_photos [])) f =
      (lastFor f bs.flatten).map (fun e => (e.2.1, e.2.2)) ∧
    (∀ r ∈ bs.foldl bulk_upsert_photos ([] : Table), r.file_hash = none) := by
  have hvL : ∀ e ∈ bs.flatten, e.1 ≠ none := by
    intro e he
    rw [List.mem_flatten] at he
    obtain ⟨b, hb, heb⟩ := he
    exact hv b hb e heb
  have hT : bs.foldl bulk_upsert_photos ([] : Table) = bs.flatten.foldl applyEntry [] :=
    bulks_eq_foldl_flatten bs [] hv
  refine ⟨?_, ?_, ?_, ?_⟩
  · rw [load_all_keys, hT]
    exact fpNodup_foldl _ _ (by simp [fpNodup])
  · intro g
    rw [load_all_keys, hT]
    constructor
    · intro hg
      have hsome : (findRow (bs.flatten.foldl applyEntry []) g).isSome := by
        rw [findRow, List.find?_isSome]
        rw [List.mem_map] at hg
        obtain ⟨r, hr, hrg⟩ := hg
        exact ⟨r, hr, by simp [hrg]⟩
      rw [findRow_foldl_isSome _ _ hvL] at hsome
      unfold lastFor at hsome
      rw [List.getLast?_isSome] at hsome
      obtain ⟨e, he⟩ := List.exists_mem_of_ne_nil _ hsome
      rw [List.mem_filter] at he
      rw [List.mem_map]
      exact ⟨e, he.1, by simpa using he.2⟩
    · intro hg
      rw [List.mem_map] at hg
      obtain ⟨e, he, heg⟩ := hg
      have hfilter : e ∈ bs.flatten.filter (fun e2 => e2.1 == some g) := by
        rw [List.mem_filter]
        exact ⟨he, by simp [heg]⟩
      have hsome : (lastFor g bs.flatten).isSome := by
        unfold lastFor
        rw [List.getLast?_isSome]
        exact List.ne_nil_of_mem hfilter
      rw [← findRow_foldl_isSome _ _ hvL] at hsome
      rw [findRow, List.find?_isSome] at hsome
      obtain ⟨r, hr, hrg⟩ := hsome
      rw [List.mem_map]
      exact ⟨r, hr, by simpa using hrg⟩
  · rw [lookupDate_load_all, hT]
    have h := findRow_foldl bs.flatten [] f hvL
    have h0 : findRow ([] : Table) f = none := rfl
    rw [h0] at h
    simp only [Option.map_none', Option.or_none] at h
    have h2 := congrArg
      (Option.map (fun x : Option String × Option String × Option String => (x.1, x.2.1))) h
    rw [Option.map_map, Option.map_map] at h2
    exact h2
  · rw [hT]
    exact hash_none_foldl _ _ (by simp)

/-- Witness for C3 at the two-batch scenario of the spec. -/
theorem claim_C3_witness :
    lookupDate
      (load_all_photo_dates
        ([[((some "/a/1.jpg" : Option String), some "2024", some "01"),
           ((some "/a/2.jpg" : Option String), some "2024", some "02")],
          [((some "/a/1.jpg" : Option String), some "2023", some "12")]].foldl
          bulk_upsert_photos []))
      "/a/1.jpg" = some (some "2023", some "12") ∧
    ((load_all_photo_dates
        ([[((some "/a/1.jpg" : Option String), some "2024", some "01"),
           ((some "/a/2.jpg" : Option String), some "2024", some "02")],
          [((some "/a/1.jpg" : Option String), some "2023", some "12")]].foldl
          bulk_upsert_photos [])).map Prod.fst).Nodup := by
  have h := claim_C3_load_all
    [[((some "/a/1.jpg" : Option String), some "2024", some "01"),
      ((some "/a/2.jpg" : Option String), some "2024", some "02")],
     [((some "/a/1.jpg" : Option String), some "2023", some "12")]]
    "/a/1.jpg" (by decide)
  exact ⟨h.2.2.1.trans (by decide), h.1⟩

/-- C7: starting from a table satisfying both UNIQUE constraints, any
sequence of repository operations keeps the non-null hashes pairwise
distinct; moreover a raw `INSERT OR REPLACE` of any row — including
one carrying an already-present `file_hash` — replaces the conflicting
row instead of duplicating the hash. -/
theorem claim_C7_hash_unique (t : Table) (ops : List DBOp) (r : Row)
    (hf : fpNodup t) (hh : hashUnique t) :
    hashUnique (runOps t ops) ∧ hashUnique (insertOrReplace t r) :=
  ⟨(constraints_runOps ops t hf hh).2, hashUnique_insertOrReplace t r hh⟩

/-- Witness for C7: a concrete table, a bulk-plus-update history, and
an insert that re-uses an existing hash. -/
theorem claim_C7_witness :
    hashUnique
      (runOps [⟨1, "/b.jpg", some "h1", none, none⟩]
        [.bulk [((some "/c.jpg" : Option String), some "2024", none)],
         .update "/b.jpg" (some "2020") none]) ∧
    hashUnique
      (insertOrReplace [⟨1, "/b.jpg", some "h1", none, none⟩]
        ⟨2, "/c2.jpg", some "h1", none, none⟩) :=
  claim_C7_hash_unique [⟨1, "/b.jpg", some "h1", none, none⟩] _ _
    (by decide) (by decide)

/-- C9: `update_photo_date` preserves the row count, and at every
position the row keeps its `id`, `filepath` and `file_hash`; a row
whose filepath differs is unchanged, and a matching row changes
exactly its `year` and `month`. -/
theorem claim_C9_update_frame (t : Table) (f : String) (y m : Option String) :
    (update_photo_date t f y m).length = t.length ∧
    ∀ (i : Nat) (r : Row), t[i]? = some r →
      ∃ r2 : Row, (update_photo_date t f y m)[i]? = some r2 ∧
        r2.id = r.id ∧ r2.filepath = r.filepath ∧ r2.file_hash = r.file_hash ∧
        (r.filepath ≠ f → r2 = r) ∧
        (r.filepath = f → r2 = { r with year := y, month := m }) := by
  constructor
  · simp [update_photo_date]
  · intro i r hr
    have hmap : (update_photo_date t f y m)[i]? =
        (t[i]?).map
          (fun r => if r.filepath == f then { r with year := y, month := m } else r) := by
      simp [update_photo_date]
    rw [hr, Option.map_some'] at hmap
    by_cases hf2 : r.filepath = f
    · refine ⟨{ r with year := y, month := m }, ?_, rfl, rfl, rfl,
        fun hne => absurd hf2 hne, fun _ => rfl⟩
      rw [hmap]
      simp [hf2]
    · refine ⟨r, ?_, rfl, rfl, rfl, fun _ => rfl, fun he => absurd he hf2⟩
      rw [hmap]
      simp [hf2]

/-- Witness for C9: a point update touches only the date fields of the
matching row. -/
theorem claim_C9_witness :
    (update_photo_date [⟨1, "/a.jpg", some "h", some "2020", some "05"⟩]
        "/a.jpg" (some "2000") (some "01"))[0]?
      = some ⟨1, "/a.jpg", some "h", some "2000", some "01"⟩ := by
  obtain ⟨r2, h1, _, _, _, _, hyes⟩ :=
    (claim_C9_update_frame [⟨1, "/a.jpg", some "h", some "2020", some "05"⟩]
      "/a.jpg" (some "2000") (some "01")).2 0
      ⟨1, "/a.jpg", some "h", some "2020", some "05"⟩ (by decide)
  rw [h1, hyes rfl]

/-- C8: `set_safe_password_hash p` stores under `safe_password_hash`
exactly the hex SHA-256 digest of the UTF-8 bytes of `p`; every value
of the updated document is either an old value or that digest (the
plaintext is never stored); afterwards the verifier accepts `p`,
rejects any `q` with a different digest, and on a fresh store with no
password it rejects everything. -/
theorem claim_C8_password (cfg : Config) (p q : String) :
    getKey (set_safe_password_hash p cfg) "safe_password_hash"
      = some (.str (sha256hex p)) ∧
    (∀ k v, getKey (set_safe_password_hash p cfg) k = some v →
      getKey cfg k = some v ∨ v = .str (sha256hex p)) ∧
    verify_safe_password p (set_safe_password_hash p cfg) = true ∧
    (sha256hex q ≠ sha256hex p →
      verify_safe_password q (set_safe_password_hash p cfg) = false) ∧
    verify_safe_password q ([] : Config) = false := by
  refine ⟨getKey_setKey_same .., ?_, ?_, ?_, rfl⟩
  · intro k v hk
    by_cases hkk : k = "safe_password_hash"
    · subst hkk
      rw [set_safe_password_hash, getKey_setKey_same] at hk
      exact Or.inr (Option.some.inj hk).symm
    · exact Or.inl (by
        rwa [set_safe_password_hash, getKey_setKey_other cfg _ k _ hkk] at hk)
  · unfold verify_safe_password get_safe_password_hash set_safe_password_hash
    rw [getKey_setKey_same]
    simp [sha256hex_ne_empty p]
  · intro hq
    unfold verify_safe_password get_safe_password_hash set_safe_password_hash
    rw [getKey_setKey_same]
    simp [sha256hex_ne_empty p, hq]

set_option maxRecDepth 100000 in
/-- Witness for C8: setting the password `secret`, verifying `secret`
and `wrong` (whose digests differ, checked by evaluating SHA-256), and
verifying on a fresh store. -/
theorem claim_C8_witness :
    verify_safe_password "secret"
      (set_safe_password_hash "secret" [("photo_directory", JVal.str "/pics")]) = true ∧
    verify_safe_password "wrong"
      (set_safe_password_hash "secret" [("photo_directory", JVal.str "/pics")]) = false ∧
    verify_safe_password "anything" ([] : Config) = false :=
  ⟨(claim_C8_password [("photo_directory", JVal.str "/pics")] "secret" "wrong").2.2.1,
   (claim_C8_password [("photo_directory", JVal.str "/pics")] "secret" "wrong").2.2.2.1
     (by decide),
   (claim_C8_password [] "secret" "anything").2.2.2.2⟩

/-- C10: each typed configuration setter rewrites only the key it
owns; every other key of the document loaded at the start of the call
keeps its value in the saved document. -/
theorem claim_C10_setter_frame (cfg : Config) (k path : String) (size : Int)
    (folder_id p : String) :
    (k ≠ "photo_directory" →
      getKey (set_photo_directory path cfg) k = getKey cfg k) ∧
    (k ≠ "thumbnail_size" →
      getKey (set_thumbnail_size size cfg) k = getKey cfg k) ∧
    (k ≠ "drive_folder_id" →
      getKey (set_drive_folder_id folder_id cfg) k = getKey cfg k) ∧
    (k ≠ "safe_password_hash" →
      getKey (set_safe_password_hash p cfg) k = getKey cfg k) :=
  ⟨fun h => getKey_setKey_other cfg _ k _ h,
   fun h => getKey_setKey_other cfg _ k _ h,
   fun h => getKey_setKey_other cfg _ k _ h,
   fun h => getKey_setKey_other cfg _ k _ h⟩

set_option maxRecDepth 100000 in
/-- Witness for C10 on a concrete two-key document: each of the four
setters leaves the keys it does not own intact. -/
theorem claim_C10_witness :
    getKey (set_thumbnail_size 256
      [("photo_directory", JVal.str "/old"), ("thumbnail_size", JVal.num 128)])
      "photo_directory" = some (JVal.str "/old") ∧
    getKey (set_photo_directory "/new"
      [("photo_directory", JVal.str "/old"), ("thumbnail_size", JVal.num 128)])
      "thumbnail_size" = some (JVal.num 128) ∧
    getKey (set_drive_folder_id "folder123"
      [("photo_directory", JVal.str "/old"), ("thumbnail_size", JVal.num 128)])
      "photo_directory" = some (JVal.str "/old") ∧
    getKey (set_safe_password_hash "secret"
      [("photo_directory", JVal.str "/old"), ("thumbnail_size", JVal.num 128)])
      "photo_directory" = some (JVal.str "/old") :=
  ⟨((claim_C10_setter_frame
      [("photo_directory", JVal.str "/old"), ("thumbnail_size", JVal.num 128)]
      "photo_directory" "/new" 256 "folder123" "secret").2.1 (by decide)).trans (by decide),
   ((claim_C10_setter_frame
      [("photo_directory", JVal.str "/old"), ("thumbnail_size", JVal.num 128)]
      "thumbnail_size" "/new" 256 "folder123" "secret").1 (by decide)).trans (by decide),
   ((claim_C10_setter_frame
      [("photo_directory", JVal.str "/old"), ("thumbnail_size", JVal.num 128)]
      "photo_directory" "/new" 256 "folder123" "secret").2.2.1 (by decide)).trans (by decide),
   ((claim_C10_setter_frame
      [("photo_directory", JVal.str "/old"), ("thumbnail_size", JVal.num 128)]
      "photo_directory" "/new" 256 "folder123" "secret").2.2.2 (by decide)).trans (by decide)⟩

end VisageVault
